import Mathlib

/-!
# Verification of the iptrie LPM core against its specification

This file gives a shallow embedding, in Lean 4, of the longest-prefix-match
core of the `iptrie` Rust crate:

* the prefix algebra (`src/prefix/slot.rs`, `src/prefix/ipstd.rs`,
  `src/prefix/mod.rs`): bit slots, masks, coverage;
* the Patricia (radix) trie (`src/trie/patricia.rs`, `src/trie/common.rs`):
  arenas of leaves and branchings, `insert`, `remove`, `get`, `lookup`,
  and the compression-level machinery;
* the level-compressed trie (`src/trie/lctrie.rs`): the packed compressed
  arena, the bulk builder and its lookups.

Machine integers are embedded as `Nat` with explicit truncation where the
Rust code can overflow in release mode (`u8` subtraction wraps modulo 256,
shifts mask their amount modulo the bit width).  Arena accesses translate
the Rust `debug_assert!` + `get_unchecked` pattern: an out-of-bounds index
is undefined behaviour in release builds, and the embedding reports it as
the error value `RunErr.oob`.  An always-on `panic!`/`assert!` is reported
as `RunErr.panicked`.  Loops take explicit fuel and report exhaustion as
`RunErr.fuelOut`; every theorem below supplies enough concrete fuel that
`fuelOut` never occurs in the computations it evaluates.
-/

namespace IPTrie

/-- Errors of an embedded Rust computation: an always-on `panic!`/`assert!`,
the always-on capacity `assert!` of `CompressedTree::push` (kept as its own
constructor so that statements can name which assertion fired), an
out-of-bounds unchecked access (undefined behaviour in release builds), or
exhaustion of the explicit fuel of the embedding. -/
inductive RunErr where
  | panicked
  | capacity
  | oob
  | fuelOut
  deriving Repr, DecidableEq

/-- Result of an embedded computation. -/
abbrev Res (α : Type) := Except RunErr α

instance {ε α : Type} [DecidableEq ε] [DecidableEq α] :
    DecidableEq (Except ε α) := fun a b =>
  match a, b with
  | .ok x, .ok y =>
    if h : x = y then .isTrue (by rw [h]) else .isFalse (by simp [h])
  | .error e, .error f =>
    if h : e = f then .isTrue (by rw [h]) else .isFalse (by simp [h])
  | .ok _, .error _ => .isFalse (by simp)
  | .error _, .ok _ => .isFalse (by simp)

/-! ## Bit slots (`src/prefix/slot.rs`)

A slot is a `W`-bit unsigned integer, embedded as a `Nat` smaller than
`2 ^ W`.  Bit positions are 1-based from the most significant bit, as in
the source. -/

/-- `BitSlot::bitmask(len)`: the slot with the `len` first (high) bits set.
Source: `if len == 0 { 0 } else { (!0 as $slot) << (Self::LEN-len) }`,
truncated to `W` bits. -/
def bitmask (W len : Nat) : Nat :=
  if len = 0 then 0 else ((2 ^ W - 1) <<< (W - len)) % 2 ^ W

/-- The number of binary digits of `n`, computed by structural recursion
on a width bound (so that it reduces in the kernel). -/
def bitLenAux : Nat → Nat → Nat
  | 0, _ => 0
  | w + 1, n => if n = 0 then 0 else bitLenAux w (n / 2) + 1

/-- `BitSlot::first_bit`: position of the first set bit, 1-based from the
most significant bit; `W + 1` when the slot is zero.
Source: `self.leading_zeros() as u8 + 1`, i.e. `W + 1` minus the bit
length of the slot. -/
def firstBit (W slot : Nat) : Nat :=
  W + 1 - bitLenAux W slot

/-- `BitSlot::is_set(pos)`: whether the 1-based bit `pos` is set.
Source: `(self >> (Self::LEN-pos)) & 1 != 0`. -/
def isSet (W slot pos : Nat) : Bool :=
  (slot >>> (W - pos)) &&& 1 != 0

/-- `BitSlot::last_16_bits`: truncation to the last 16 bits
(`*self as u16`). -/
def last16 (x : Nat) : Nat := x % 2 ^ 16

/-- Release-mode Rust shift right on a `W`-bit integer: the shift amount is
masked modulo the bit width. -/
def wshr (W x s : Nat) : Nat := x >>> (s % W)

/-- Release-mode Rust `u8` subtraction: wraps modulo 256. -/
def u8sub (a b : Nat) : Nat := (a + 256 - b % 256) % 256

/-! ## Prefixes (`src/prefix/mod.rs`, `src/prefix/ipstd.rs`)

A prefix is embedded as its raw bit slot together with its length.  The
generic trait operation `bitslot_trunc` is the slot masked to the length;
for the `Ipv4Prefix`/`Ipv6Prefix` types the constructors truncate the
stored slot, so both coincide (claim C10). -/

structure Pfx where
  slot : Nat
  len : Nat
  deriving Repr, DecidableEq

/-- `IpPrefix::bitslot` — the raw slot. -/
def Pfx.bitslot (p : Pfx) : Nat := p.slot

/-- `IpPrefix::bitmask` for a `W`-bit prefix. -/
def Pfx.mask (W : Nat) (p : Pfx) : Nat := bitmask W p.len

/-- `IpPrefix::bitslot_trunc`, in its generic form
`self.bitslot() & self.bitmask()`. -/
def Pfx.trunc (W : Nat) (p : Pfx) : Nat := p.slot &&& bitmask W p.len

/-- `IpPrefixCoverage` (`src/prefix/mod.rs`). -/
inductive Coverage where
  | noCoverage
  | widerRange
  | sameRange
  deriving Repr, DecidableEq

/-- `IpPrefixCovering::covering` (`src/prefix/mod.rs`):
```rust
if other.bitslot() & self.bitmask() != self.bitslot_trunc() { NoCoverage }
else { match self.len().cmp(&other.len()) {
         Less => WiderRange, Equal => SameRange, Greater => NoCoverage } }
``` -/
def covering (W : Nat) (self other : Pfx) : Coverage :=
  if other.bitslot &&& self.mask W != self.trunc W then .noCoverage
  else if self.len < other.len then .widerRange
  else if self.len = other.len then .sameRange
  else .noCoverage

/-- `covers`: any non-`NoCoverage` coverage. -/
def coversB (W : Nat) (self other : Pfx) : Bool :=
  covering W self other != .noCoverage

/-! ### The `Ipv4Prefix` / `Ipv6Prefix` constructors (`src/prefix/ipstd.rs`) -/

/-- `IpPrefixError` (`src/prefix/mod.rs`), restricted to the variant the
constructors produce. -/
inductive IpPrefixError where
  | prefixLenError
  deriving Repr, DecidableEq

/-- `Ipv4Prefix::new(addr, len)` (and identically `Ipv6Prefix::new` with
`W = 128`):
```rust
if len > Self::MAX_LEN { Err(PrefixLenError) }
else { Ok( Self { addr: u32::from(addr) & u32::bitmask(len), len }) }
```
`MAX_LEN` is the slot width `W`. -/
def prefixNew (W addr len : Nat) : Except IpPrefixError Pfx :=
  if len > W then .error .prefixLenError
  else .ok { slot := addr &&& bitmask W len, len := len }

/-- `IpPrefix::root()` for `Ipv4Prefix`/`Ipv6Prefix`:
`Self { addr: 0, len: 0 }`. -/
def prefixRoot : Pfx := { slot := 0, len := 0 }

/-- `From<Ipv4Net> for Ipv4Prefix`:
`Self { addr: value.trunc().addr().into(), len: value.prefix_len() }`.
`Ipv4Net::trunc` zeroes the host bits, i.e. masks the address with
`bitmask(prefix_len)`; an `Ipv4Net` value always has `prefix_len ≤ W`.
`FromStr` parses into an `Ipv4Net` and goes through this conversion. -/
def prefixFromNet (W addr len : Nat) : Pfx :=
  { slot := addr &&& bitmask W len, len := len }

/-- `From<Ipv4Addr> for Ipv4Prefix`:
`Self { addr: value.into(), len: Self::MAX_LEN }` where the address is a
full-width `W`-bit integer. -/
def prefixFromAddr (W addr : Nat) : Pfx :=
  { slot := addr % 2 ^ W, len := W }

/-! ## Node indices (`src/trie/common.rs`)

A `NodeIndex` is a single `i32`: non-negative values are branching
indices, negative values encode the leaf index `!i` (bitwise not, i.e.
`-(i+1)`).  Leaf and branching indices are embedded as the `Nat` arena
positions they denote; `LeafIndex::root_leaf()` is position 0. -/

abbrev NodeIx := Int

/-- The `NodeIndex` encoding `!l` of the leaf at arena position `l`. -/
def leafIx (l : Nat) : NodeIx := -((l : Int) + 1)

/-- The `NodeIndex` of the branching at arena position `b` (the identity
on non-negative values). -/
def branchIx (b : Nat) : NodeIx := (b : Int)

/-- `NodeIndex::is_leaf`: `self.0 < 0`. -/
def NodeIx.isLeaf (n : NodeIx) : Bool := n < 0

/-- `NodeIndex::is_branching`: `self.0 >= 0`. -/
def NodeIx.isBranching (n : NodeIx) : Bool := 0 ≤ n

/-- `LeafIndex::index()`: `!self.0 as usize`. -/
def NodeIx.asLeaf (n : NodeIx) : Nat := (-(n + 1)).toNat

/-- `BranchingIndex::index()`: `self.0 as usize`. -/
def NodeIx.asBranch (n : NodeIx) : Nat := n.toNat

/-- `LeafIndex::root_leaf()` denotes leaf arena position 0. -/
def rootLeaf : Nat := 0

/-! ## The Patricia trie (`src/trie/patricia.rs`, `src/trie/common.rs`) -/

/-- A Patricia branching node:
`{ escape: LeafIndex, parent: BranchingIndex, child: [NodeIndex;2], bit: u8 }`. -/
structure Branching where
  escape : Nat
  parent : Nat
  child0 : NodeIx
  child1 : NodeIx
  bit : Nat
  deriving Repr, DecidableEq

/-- `Branching::child(slot)`: child 1 when bit `bit` of the slot is set,
else child 0. -/
def Branching.child (W : Nat) (br : Branching) (slot : Nat) : NodeIx :=
  if isSet W slot br.bit then br.child1 else br.child0

/-- Writing through `Branching::child_mut(slot)`. -/
def Branching.setChild (W : Nat) (br : Branching) (slot : Nat) (x : NodeIx) :
    Branching :=
  if isSet W slot br.bit then { br with child1 := x } else { br with child0 := x }

/-- A leaf: `{ prefix: K, value: V }` (the field `prefix` is renamed `pfx`
here). -/
structure Leaf (V : Type) where
  pfx : Pfx
  value : V
  deriving Repr, DecidableEq

/-- `RadixTrie<K,V>`: the two arenas. -/
structure RadixTrie (V : Type) where
  branching : Array Branching
  leaves : Array (Leaf V)
  deriving Repr, DecidableEq

/-- `RadixTrie::new(value, capacity)`: one root branching
`{escape: root_leaf, parent: root, child: [root_leaf; 2], bit: 1}` and one
root leaf holding the root prefix and the root value. -/
def RadixTrie.new (V : Type) (rootValue : V) : RadixTrie V :=
  { branching := #[{ escape := rootLeaf, parent := 0,
                     child0 := leafIx rootLeaf, child1 := leafIx rootLeaf,
                     bit := 1 }],
    leaves := #[{ pfx := prefixRoot, value := rootValue }] }

variable {V : Type}

/-- Checked read of a branching (`debug_assert!` + `get_unchecked`:
out of bounds is UB, reported as `oob`). -/
def getB (t : RadixTrie V) (i : Nat) : Res Branching :=
  if h : i < t.branching.size then .ok t.branching[i] else .error .oob

/-- Checked write of a branching. -/
def setB (t : RadixTrie V) (i : Nat) (b : Branching) : Res (RadixTrie V) :=
  if i < t.branching.size then .ok { t with branching := t.branching.set! i b }
  else .error .oob

/-- Checked read of a leaf. -/
def getL (t : RadixTrie V) (i : Nat) : Res (Leaf V) :=
  if h : i < t.leaves.size then .ok t.leaves[i] else .error .oob

/-- Checked write of a leaf. -/
def setL (t : RadixTrie V) (i : Nat) (lf : Leaf V) : Res (RadixTrie V) :=
  if i < t.leaves.size then .ok { t with leaves := t.leaves.set! i lf }
  else .error .oob

/-- `BranchingTree::push(parent, escape, bit)`: append a branching whose
two children are its escape; returns its index. -/
def pushBranching (t : RadixTrie V) (parent escape bit : Nat) :
    Nat × RadixTrie V :=
  let nb : Branching :=
    { escape := escape, parent := parent,
      child0 := leafIx escape, child1 := leafIx escape, bit := bit }
  (t.branching.size, { t with branching := t.branching.push nb })

/-- `BranchingTree::search_deepest_candidate(slot)`: descend from the root
branching by testing `bit` of the slot until a leaf is reached; returns
`(branching, leaf)`. -/
def searchDeepestGo (W : Nat) (t : RadixTrie V) (slot : Nat) :
    Nat → Nat → Res (Nat × Nat)
  | _, 0 => .error .fuelOut
  | b, fuel + 1 => do
    let br ← getB t b
    let n := br.child W slot
    if n.isLeaf then return (b, n.asLeaf)
    else searchDeepestGo W t slot n.asBranch fuel

/-- Entry point of `search_deepest_candidate`, starting at the root
branching. -/
def searchDeepest (W : Nat) (t : RadixTrie V) (slot : Nat) (fuel : Nat) :
    Res (Nat × Nat) :=
  searchDeepestGo W t slot 0 fuel

/-- `BranchingTree::replace_escape_leaf(n, l1, l2)`:
```rust
self[n].escape = l2;
for i in 0..=1 {
    let c = self[n].child[i];
    if c.is_leaf() { if c == l1 { self[n].child[i] = l2.into(); } }
    else if self[c].escape == l1 { self.replace_escape_leaf(c.into(), l1, l2); }
}
``` -/
def replaceEscapeLeaf (W : Nat) :
    Nat → RadixTrie V → Nat → Nat → Nat → Res (RadixTrie V)
  | 0, _, _, _, _ => .error .fuelOut
  | fuel + 1, t, n, l1, l2 => do
    let bn ← getB t n
    let t ← setB t n { bn with escape := l2 }
    -- i = 0
    let bn ← getB t n
    let t ← if bn.child0.isLeaf then
        if bn.child0 == leafIx l1 then setB t n { bn with child0 := leafIx l2 }
        else pure t
      else do
        let c ← getB t bn.child0.asBranch
        if c.escape == l1 then replaceEscapeLeaf W fuel t bn.child0.asBranch l1 l2
        else pure t
    -- i = 1
    let bn ← getB t n
    if bn.child1.isLeaf then
      if bn.child1 == leafIx l1 then setB t n { bn with child1 := leafIx l2 }
      else pure t
    else do
      let c ← getB t bn.child1.asBranch
      if c.escape == l1 then replaceEscapeLeaf W fuel t bn.child1.asBranch l1 l2
      else pure t

/-- `BranchingTree::insert_prefix_branching(n, e, x, p, slot)`:
```rust
let nn = self.push(n, e, p);
*self[nn].child_mut(slot) = x;
if x.is_branching() {
    self[x].parent = nn;
    if self[x].escape == self[n].escape {
        self.replace_escape_leaf(x.into(), self[n].escape, e);
    }
}
*self[n].child_mut(slot) = nn.into();
nn
``` -/
def insertPrefixBranching (W fuel : Nat) (t : RadixTrie V)
    (n e : Nat) (x : NodeIx) (p slot : Nat) : Res (Nat × RadixTrie V) := do
  let (nn, t) := pushBranching t n e p
  let bnn ← getB t nn
  let t ← setB t nn (bnn.setChild W slot x)
  let t ← if x.isBranching then do
      let bx ← getB t x.asBranch
      let t ← setB t x.asBranch { bx with parent := nn }
      let bn ← getB t n
      let bx ← getB t x.asBranch
      if bx.escape == bn.escape then replaceEscapeLeaf W fuel t x.asBranch bn.escape e
      else pure t
    else pure t
  let bn ← getB t n
  let t ← setB t n (bn.setChild W slot (branchIx nn))
  return (nn, t)

/-- The climb `while self[n].bit > pos { n = self[n].parent; }` used by
`insert_prefix`. -/
def climbWhileBitGt (fuel₀ : Nat) (t : RadixTrie V) (pos : Nat) :
    Nat → Nat → Res Nat
  | _, 0 => .error .fuelOut
  | n, fuel + 1 => do
    let bn ← getB t n
    if bn.bit > pos then climbWhileBitGt fuel₀ t pos bn.parent fuel
    else return n

/-- `BranchingTree::insert_prefix(addedindex, addedslot, addedlen, n,
deepestindex, deepestslot, deepestlen)` — the three-case insertion:
```rust
let cmp = *addedslot ^ *deepestslot;
let pos = cmp.first_bit();
if (pos > deepestlen) && (deepestlen < addedlen) {
    if self[n].child(addedslot) == self[n].escape {
        *self[n].child_mut(addedslot) = addedindex.into();
    } else {
        self.insert_prefix_branching(n, deepestindex, addedindex.into(),
                                     deepestlen+1, addedslot);
    }
} else if pos > addedlen {
    let pos = addedlen + 1;
    while self[n].bit > pos { n = self[n].parent; }
    if self[n].bit < pos {
        self.insert_prefix_branching(n, addedindex,
            self[n].child(deepestslot), pos, deepestslot);
    } else {
        self.replace_escape_leaf(n, self[n].escape, addedindex);
    }
} else {
    while self[n].bit > pos { n = self[n].parent; }
    if self[n].bit < pos {
        n = self.insert_prefix_branching(n, self[n].escape,
            self[n].child(deepestslot), pos, deepestslot);
    }
    *self[n].child_mut(addedslot) = addedindex.into();
}
``` -/
def insertPrefix (W fuel : Nat) (t : RadixTrie V)
    (addedindex addedslot addedlen n deepestindex deepestslot deepestlen : Nat) :
    Res (RadixTrie V) := do
  let cmp := addedslot ^^^ deepestslot
  let pos := firstBit W cmp
  if pos > deepestlen ∧ deepestlen < addedlen then do
    let bn ← getB t n
    if bn.child W addedslot == leafIx bn.escape then
      setB t n (bn.setChild W addedslot (leafIx addedindex))
    else do
      let (_, t) ← insertPrefixBranching W fuel t n deepestindex
        (leafIx addedindex) (deepestlen + 1) addedslot
      return t
  else if pos > addedlen then do
    let pos := addedlen + 1
    let n ← climbWhileBitGt fuel t pos n fuel
    let bn ← getB t n
    if bn.bit < pos then do
      let (_, t) ← insertPrefixBranching W fuel t n addedindex
        (bn.child W deepestslot) pos deepestslot
      return t
    else
      replaceEscapeLeaf W fuel t n bn.escape addedindex
  else do
    let n ← climbWhileBitGt fuel t pos n fuel
    let bn ← getB t n
    if bn.bit < pos then do
      let (n', t) ← insertPrefixBranching W fuel t n bn.escape
        (bn.child W deepestslot) pos deepestslot
      let bn' ← getB t n'
      setB t n' (bn'.setChild W addedslot (leafIx addedindex))
    else
      setB t n (bn.setChild W addedslot (leafIx addedindex))

/-- The walk-up loop of `RadixTrie::insert`: starting from candidate leaf
`l` at branching `b`, climb until the leaf covers the added prefix, then
act on the coverage:
```rust
loop {
    match self[l].covering(&addedpfx) {
        NoCover => { assert!(!l.is_root_leaf()); b = self[b].parent; l = self[b].escape; }
        WiderRange => { self.branching.insert_prefix(...); return None }
        SameRange => { pop provisional leaf; swap value into self.leaves[l]; return Some(old) }
    }
}
``` -/
def insertWalk (W : Nat) (addedleaf : Nat) (addedpfx : Pfx)
    (deepestbranching deepestleaf : Nat) :
    Nat → RadixTrie V → Nat → Nat → Res (Option V × RadixTrie V)
  | 0, _, _, _ => .error .fuelOut
  | fuel + 1, t, b, l => do
    let lf ← getL t l
    match covering W lf.pfx addedpfx with
    | .noCoverage => do
      if l == rootLeaf then .error .panicked   -- assert!(!l.is_root_leaf())
      else do
        let bb ← getB t b
        let b := bb.parent
        let bb ← getB t b
        insertWalk W addedleaf addedpfx deepestbranching deepestleaf fuel t b bb.escape
    | .widerRange => do
      let dl ← getL t deepestleaf
      let t ← insertPrefix W (fuel + 1) t addedleaf addedpfx.bitslot addedpfx.len
        deepestbranching deepestleaf dl.pfx.bitslot dl.pfx.len
      return (none, t)
    | .sameRange => do
      -- self.leaves.remove_last() pops the provisional leaf; its value is
      -- swapped into the existing leaf and the old value returned
      let newLeaf ← getL t (t.leaves.size - 1)
      let t : RadixTrie V := { t with leaves := t.leaves.pop }
      let old ← getL t l
      let t ← setL t l { old with value := newLeaf.value }
      return (some old.value, t)

/-- `RadixTrie::insert(k, v)`:
```rust
let addedleaf = self.leaves.push(Leaf::new(k, v));
let addedpfx = self[addedleaf];
let (deepestbranching, deepestleaf) = self.branching.search_deepest_candidate(&addedpfx.bitslot());
let mut l = deepestleaf;
let mut b = deepestbranching;
if l != self[b].escape && !self[l].covers(&addedpfx) { l = self[b].escape; }
loop { ... }  -- insertWalk
``` -/
def insert (W fuel : Nat) (t : RadixTrie V) (k : Pfx) (v : V) :
    Res (Option V × RadixTrie V) := do
  let t : RadixTrie V := { t with leaves := t.leaves.push { pfx := k, value := v } }
  let addedleaf := t.leaves.size - 1
  let addedpfx := k
  let (deepestbranching, deepestleaf) ← searchDeepest W t addedpfx.bitslot fuel
  let b := deepestbranching
  let bb ← getB t b
  let lf ← getL t deepestleaf
  let l := if deepestleaf != bb.escape ∧ ¬ (coversB W lf.pfx addedpfx) then bb.escape
           else deepestleaf
  insertWalk W addedleaf addedpfx deepestbranching deepestleaf fuel t b l

/-- The climb of `inner_lookup`:
`while !self[l].covers(k) { n = self[n].parent; l = self[n].escape; }`. -/
def lookupClimb (W : Nat) (k : Pfx) :
    Nat → RadixTrie V → Nat → Nat → Res (Nat × Nat)
  | 0, _, _, _ => .error .fuelOut
  | fuel + 1, t, n, l => do
    let lf ← getL t l
    if coversB W lf.pfx k then return (n, l)
    else do
      let bn ← getB t n
      let n := bn.parent
      let bn ← getB t n
      lookupClimb W k fuel t n bn.escape

/-- `RadixTrie::inner_lookup(k)`:
```rust
let (mut n, mut l) = self.branching.search_deepest_candidate(&k.bitslot_trunc());
if l != self[n].escape {
    if self[l].covers(k) { return (n,l); }
    l = self[n].escape;
}
while !self[l].covers(k) { n = self[n].parent; l = self[n].escape; }
(n,l)
``` -/
def innerLookup (W fuel : Nat) (t : RadixTrie V) (k : Pfx) : Res (Nat × Nat) := do
  let (n, l) ← searchDeepest W t (k.trunc W) fuel
  let bn ← getB t n
  if l != bn.escape then do
    let lf ← getL t l
    if coversB W lf.pfx k then return (n, l)
    else lookupClimb W k fuel t n bn.escape
  else
    lookupClimb W k fuel t n l

/-- `RadixTrie::lookup(k)`: the `(prefix, value)` pair of the leaf found by
`inner_lookup`. -/
def lookup (W fuel : Nat) (t : RadixTrie V) (k : Pfx) : Res (Leaf V) := do
  let (_, l) ← innerLookup W fuel t k
  getL t l

/-- `RadixTrie::get(k)`: `Some` of the found leaf when its length equals
the query's, else `None`:
`if k.len() == self[l].len() { Some(self.leaves[l].get()) } else { None }`. -/
def get (W fuel : Nat) (t : RadixTrie V) (k : Pfx) : Res (Option (Leaf V)) := do
  let (_, l) ← innerLookup W fuel t k
  let lf ← getL t l
  if k.len == lf.pfx.len then return some lf else return none

/-- The climb of `remove`:
`while self[self[b].parent].escape == l { b = self[b].parent; }`. -/
def removeClimb (t : RadixTrie V) (l : Nat) :
    Nat → Nat → Res Nat
  | _, 0 => .error .fuelOut
  | b, fuel + 1 => do
    let bb ← getB t b
    let bp ← getB t bb.parent
    if bp.escape == l then removeClimb t l bb.parent fuel
    else return b

/-- The escape-rewrite loop of `remove`'s reindexing:
`while self[bb].escape == lastleaf { self[bb].escape = l; bb = self[bb].parent; }`. -/
def removeEscapeRewrite (lastleaf l : Nat) :
    Nat → RadixTrie V → Nat → Res (RadixTrie V)
  | 0, _, _ => .error .fuelOut
  | fuel + 1, t, bb => do
    let br ← getB t bb
    if br.escape == lastleaf then do
      let t ← setB t bb { br with escape := l }
      removeEscapeRewrite lastleaf l fuel t br.parent
    else return t

/-- `RadixTrie::remove(k)`:
```rust
let (mut b,l) = self.inner_lookup(k);
if k.len() != self[l].len() { None } else {
    if l == self[b].escape {
        if l == LeafIndex::root_leaf() { panic!("can’t remove root prefix"); }
        while self[self[b].parent].escape == l { b = self[b].parent; }
        self.branching.replace_escape_leaf(b, l, self[self[b].parent].escape);
    } else {
        *self[b].child_mut(&k.bitslot()) = self[b].escape.into();
    }
    let lastleaf = LeafIndex::from(self.leaves.len()-1);
    let (mut bb,_ll) = self.inner_lookup(&self[lastleaf]);
    if self[bb].child[0] == lastleaf { self[bb].child[0] = l.into(); }
    if self[bb].child[1] == lastleaf { self[bb].child[1] = l.into(); }
    while self[bb].escape == lastleaf { self[bb].escape = l; bb = self[bb].parent; }
    let removed = self.leaves.0.swap_remove(l.index());
    Some(removed.1)
}
``` -/
def remove (W fuel : Nat) (t : RadixTrie V) (k : Pfx) :
    Res (Option V × RadixTrie V) := do
  let (b, l) ← innerLookup W fuel t k
  let lf ← getL t l
  if k.len != lf.pfx.len then return (none, t)
  else do
    let bb ← getB t b
    let t ←
      if l == bb.escape then do
        if l == rootLeaf then .error .panicked   -- panic!("can’t remove root prefix")
        else do
          let b ← removeClimb t l b fuel
          let bb ← getB t b
          let bp ← getB t bb.parent
          replaceEscapeLeaf W fuel t b l bp.escape
      else
        setB t b (bb.setChild W k.bitslot (leafIx bb.escape))
    let lastleaf := t.leaves.size - 1
    let lastLf ← getL t lastleaf
    let (bb, _ll) ← innerLookup W fuel t lastLf.pfx
    let br ← getB t bb
    let br := if br.child0 == leafIx lastleaf then { br with child0 := leafIx l } else br
    let br := if br.child1 == leafIx lastleaf then { br with child1 := leafIx l } else br
    let t ← setB t bb br
    let t ← removeEscapeRewrite lastleaf l fuel t bb
    -- swap_remove(l): move the last leaf into position l, pop the array
    let removed ← getL t l
    let last ← getL t (t.leaves.size - 1)
    let t : RadixTrie V := { t with leaves := t.leaves.pop }
    let t ← if l < t.leaves.size then setL t l last else pure t
    return (some removed.value, t)

/-! ## Compression levels (`src/trie/patricia.rs`, `BranchingTree`) -/

/-- `BranchingTree::count_compressed_branching(b, p)`: the number of
branchings reached from `b` (inclusive) by child chains staying at bit
positions `≤ p`:
```rust
b.child.iter().filter(|c| c.is_branching())
 .map(|c| &self[BranchingIndex::from(*c)])
 .fold(1, |count, b| if b.bit <= p { count + self.count_compressed_branching(b, p) }
                     else { count })
``` -/
def countCompressedBranching (tree : Array Branching) :
    Nat → Branching → Nat → Res Nat
  | 0, _, _ => .error .fuelOut
  | fuel + 1, b, p => do
    let mut count := 1
    for c in [b.child0, b.child1] do
      if c.isBranching then
        let cb ←
          if h : c.asBranch < tree.size then pure tree[c.asBranch]
          else .error .oob
        if cb.bit ≤ p then
          let sub ← countCompressedBranching tree fuel cb p
          count := count + sub
    return count

/-- `BranchingTree::compression_level_max(b, max, stop)`:
```rust
if max == 0 { return 0; }
if b.escape != stop { return 0; }
if b.child[0].is_branching() {
    if b.child[1].is_branching() {
        let l0 = rec(&self[b.child[0]], max-1, stop);
        let l1 = rec(&self[b.child[1]], max-1, stop);
        max.min(1 + l0.min(l1))
    } else { 1 + rec(&self[b.child[0]], max-1, stop) }
} else if b.child[1].is_branching() { 1 + rec(&self[b.child[1]], max-1, stop) }
else { 1 }
``` -/
def compressionLevelMax (tree : Array Branching) :
    Nat → Branching → Nat → Res Nat
  | 0, _, _ => .ok 0
  | mx + 1, b, stop => do
    if b.escape != stop then return 0
    else
      let sub := fun (c : NodeIx) => do
        if h : c.asBranch < tree.size then
          compressionLevelMax tree mx tree[c.asBranch] stop
        else .error .oob
      if b.child0.isBranching then
        if b.child1.isBranching then do
          let l0 ← sub b.child0
          let l1 ← sub b.child1
          return Nat.min (mx + 1) (1 + Nat.min l0 l1)
        else do
          let l0 ← sub b.child0
          return 1 + l0
      else if b.child1.isBranching then do
        let l1 ← sub b.child1
        return 1 + l1
      else return 1

/-- The `try_fold` of `compression_level` over `j = 1 .. compression_max`
(exclusive), with accumulator `(level, best count)`:
```rust
|(compression_level, compressed_children), j| {
    let cc = self.count_compressed_branching(b, b.bit + j);
    if cc < (1<<j)/(1<<comp)/2 { Err(compression_level) }
    else if cc > compressed_children { Ok((j, cc)) }
    else { Ok((compression_level, compressed_children)) }
}
```
`Err(n)` short-circuits and the caller returns `n`, so both outcomes
deliver the accumulated level. -/
def clFold (tree : Array Branching) (fuel : Nat) (b : Branching) (comp : Nat) :
    List Nat → Nat × Nat → Res Nat
  | [], (level, _) => .ok level
  | j :: js, (level, best) =>
    match countCompressedBranching tree fuel b (b.bit + j) with
    | .error e => .error e
    | .ok cc =>
      if cc < (1 <<< j) / (1 <<< comp) / 2 then .ok level
      else if cc > best then clFold tree fuel b comp js (j, cc)
      else clFold tree fuel b comp js (level, best)

/-- `BranchingTree::compression_level(b, comp)`:
```rust
let compression_max = self.compression_level_max(b, 15, b.escape);
match (1..compression_max).try_fold((0u8, self.count_compressed_branching(b, b.bit)), ...)
{ Err(n) => n, Ok((n, _)) => n }
``` -/
def compressionLevel (tree : Array Branching) (fuel : Nat) (b : Branching)
    (comp : Nat) : Res Nat := do
  let cmax ← compressionLevelMax tree 15 b b.escape
  let c0 ← countCompressedBranching tree fuel b b.bit
  clFold tree fuel b comp (List.range' 1 (cmax - 1)) (0, c0)

/-! ## The level-compressed trie (`src/trie/lctrie.rs`)

The compressed arena is a `Vec<NodeIndex>` holding packed variable-length
records: a 12-byte header (`Compressed`; three `NodeIndex`-sized slots)
followed by `1 << size` child slots.  A `BranchingIndex` into it is the
record's starting offset in slot units.  The embedding stores the records
as a list keyed by their offset together with the vector length and
capacity, which determines the same observable behaviour: reads at
offsets that are not a record start are unchecked reinterpretations of
arbitrary memory in the source, reported here as `oob`. -/

/-- `size_of::<Compressed>()`: `repr(C)` layout of
`{shift: u8, size: u8, mask: u16, escape: i32, parent: i32}`. -/
def sizeofCompressed : Nat := 12

/-- `size_of::<NodeIndex>()`: an `i32`. -/
def sizeofNodeIndex : Nat := 4

/-- An LC-trie branching header (`Compressed`). -/
structure Compressed where
  shift : Nat
  size : Nat
  mask : Nat
  escape : Nat
  parent : Nat
  deriving Repr, DecidableEq

/-- `Compressed::new(shift, size, escape, parent)` with
`mask: !(!0 << size)` on `u16` (release semantics: the shift amount is
masked modulo 16) and the always-on `assert!(size <= 16)`. -/
def Compressed.new (shift size escape parent : Nat) : Res Compressed :=
  if size ≤ 16 then
    .ok { shift := shift, size := size,
          mask := (2 ^ 16 - 1) - ((2 ^ 16 - 1) <<< (size % 16)) % 2 ^ 16,
          escape := escape, parent := parent }
  else .error .panicked

/-- `Compressed::children()`: `1 << size`. -/
def Compressed.children (c : Compressed) : Nat := 1 <<< c.size

/-- `Compressed::offset(children)`:
`children + size_of::<Compressed>() / size_of::<NodeIndex>()`. -/
def Compressed.offset (children : Nat) : Nat :=
  children + sizeofCompressed / sizeofNodeIndex

/-- `Compressed::letter(slot)` for a `W`-bit slot:
`(*slot >> (B::LEN - self.shift - self.size)).last_16_bits() & self.mask`
(u8 subtraction wraps, the slot shift masks its amount). -/
def Compressed.letter (W : Nat) (c : Compressed) (slot : Nat) : Nat :=
  c.mask &&& last16 (wshr W slot (u8sub (u8sub W c.shift) c.size))

/-- The packed compressed arena (`CompressedTree`): capacity and length in
`NodeIndex` slots, plus the records with their offsets. -/
structure CompressedTree where
  cap : Nat
  len : Nat
  recs : List (Nat × Compressed × Array NodeIx)
  deriving Repr, DecidableEq

/-- `CompressedTree::with_capacity(n)`: reserve
`(n+1) * (2 * size_of::<Compressed>() / size_of::<NodeIndex>())` slots. -/
def CompressedTree.withCapacity (n : Nat) : CompressedTree :=
  { cap := (n + 1) * (2 * sizeofCompressed / sizeofNodeIndex),
    len := 0, recs := [] }

/-- `CompressedTree::push(parent, escape, shift, size)`:
```rust
assert!( self.memzone.capacity() >= self.memzone.len() + Compressed::offset(1<<size));
let index = self.memzone.len().into();
unsafe { self.memzone.set_len( self.memzone.len() + Compressed::offset(1<<size)); }
self[index] = Compressed::new(shift, size, escape, parent);
(0..children).for_each(|i| *child_mut(i) = escape);
index
```
The capacity `assert!` is always on; its failure is reported as the
dedicated error `RunErr.capacity`. -/
def CompressedTree.push (ct : CompressedTree) (parent escape shift size : Nat) :
    Res (Nat × CompressedTree) := do
  if ct.cap < ct.len + Compressed.offset (1 <<< size) then .error .capacity
  else do
    let index := ct.len
    let hdr ← Compressed.new shift size escape parent
    let children := Array.mkArray hdr.children (leafIx escape)
    return (index,
      { ct with len := ct.len + Compressed.offset (1 <<< size),
                recs := ct.recs ++ [(index, hdr, children)] })

/-- Read the record starting at arena offset `i` (a read elsewhere
reinterprets packed memory: undefined, reported as `oob`). -/
def CompressedTree.node (ct : CompressedTree) (i : Nat) :
    Res (Compressed × Array NodeIx) :=
  match ct.recs.find? (fun r => r.1 == i) with
  | some (_, hdr, ch) => .ok (hdr, ch)
  | none => .error .oob

/-- Read child slot `j` of the record at offset `i`
(`Compressed::child`, `debug_assert!(n < children)` + raw pointer). -/
def CompressedTree.child (ct : CompressedTree) (i j : Nat) : Res NodeIx := do
  let (_, ch) ← ct.node i
  if h : j < ch.size then return ch[j] else .error .oob

/-- Write child slot `j` of the record at offset `i`
(`Compressed::child_mut`). -/
def CompressedTree.setChild (ct : CompressedTree) (i j : Nat) (x : NodeIx) :
    Res CompressedTree := do
  let (hdr, ch) ← ct.node i
  if j < ch.size then
    return { ct with recs := ct.recs.map (fun r =>
      if r.1 == i then (r.1, hdr, ch.set! j x) else r) }
  else .error .oob

/-- Overwrite the parent field of the record at offset `i`
(used by `skip_redundant_parent`). -/
def CompressedTree.setParent (ct : CompressedTree) (i p : Nat) :
    Res CompressedTree := do
  let (hdr, ch) ← ct.node i
  return { ct with recs := ct.recs.map (fun r =>
    if r.1 == i then (r.1, { hdr with parent := p }, ch) else r) }

/-- `LevelCompressedTrie<K,V>`: the compressed arena and the leaf arena
moved from the radix trie. -/
structure LCTrie (V : Type) where
  branching : CompressedTree
  leaves : Array (Leaf V)
  deriving Repr, DecidableEq

/-- Checked read of an LC leaf. -/
def LCTrie.leaf (lc : LCTrie V) (i : Nat) : Res (Leaf V) :=
  if h : i < lc.leaves.size then .ok lc.leaves[i] else .error .oob

/-- The escape-stack verification loop in `compute_compressed_child`'s
leaf case:
```rust
while matching != child {
    thechild = tree[b].escape;
    matching = (self[thechild].bitslot() >> shft).last_16_bits() & c.mask;
    child &= (self[thechild].bitmask() >> shft).last_16_bits();
    b = tree[b].parent;
}
```
Returns the resulting leaf. -/
def escapeStack (W : Nat) (tree : Array Branching) (lc : LCTrie V)
    (cmask shft : Nat) :
    Nat → Nat → Nat → Nat → Nat → Res Nat
  | 0, _, _, _, _ => .error .fuelOut
  | fuel + 1, thechild, matching, child, b =>
    if matching != child then do
      let bb ←
        if h : b < tree.size then pure tree[b] else .error .oob
      let thechild := bb.escape
      let lf ← lc.leaf thechild
      let matching := last16 (wshr W lf.pfx.bitslot shft) &&& cmask
      let child := child &&& last16 (wshr W (lf.pfx.mask W) shft)
      escapeStack W tree lc cmask shft fuel thechild matching child bb.parent
    else .ok thechild

/-- A pending call of the mutually recursive LC builder procedures
(`compress`, its `(0..children).for_each` loop, and
`compute_compressed_child`), used so the fueled trampoline `buildGo` is a
single structurally recursive definition. -/
inductive BuildCall where
  | compressAt (b parent : Nat)
  | children (current i cnt b : Nat)
  | child (current currchild depth start b : Nat)

/-- The fueled trampoline of the LC builder.  Its three modes embed:

`BuildCall.compressAt b parent` — `LevelCompressedTrie::compress`:
```rust
let compression = tree.compression_level(&tree[b], comp);
let shift: u8 = tree[b].bit;
let current = self.branching.push(parent, tree[b].escape, shift - 1, compression + 1);
done[b.index()] = current.into();
(0..self[current].children()).for_each(|i|
    self.compute_compressed_child(tree, current, i, 1, b, b, done, comp));
current
```

`BuildCall.children current i cnt b` — the `for_each` loop above;

`BuildCall.child current currchild depth start b` —
`LevelCompressedTrie::compute_compressed_child`:
```rust
let c = &self[current];
let thechild = if currchild & (1 << (c.size - depth)) == 0
               { tree[b].child[0] } else { tree[b].child[1] };
if thechild.is_leaf() {
    let mut thechild = LeafIndex::from(thechild);
    let shft = K::Slot::LEN - c.shift - c.size;
    let mut matching = (self[thechild].bitslot() >> shft).last_16_bits() & c.mask;
    let mut child = (self[thechild].bitmask() >> shft).last_16_bits() & currchild;
    while matching != child { ... }          -- escapeStack
    *self[current].child_mut(currchild) = thechild.into();
} else {
    let thechild = BranchingIndex::from(thechild);
    if let Some(n) = done[thechild.index()] {
        *self[current].child_mut(currchild) = n.into();
    } else {
        let mut depth = tree[thechild].bit;
        depth -= c.shift;                    -- u8 wrapping in release
        if depth > c.size {
            *self[current].child_mut(currchild) =
                self.compress(tree, thechild, current, done, comp).into();
        } else {
            self.compute_compressed_child(tree, current, currchild, depth,
                                          start, thechild, done, comp);
        }
    }
}
```
The returned `Nat` is the compressed index produced by `compressAt`
(0, unused, for the other modes). -/
def buildGo (W : Nat) (tree : Array Branching) (comp : Nat) :
    Nat → BuildCall → LCTrie V × Array (Option Nat) →
    Res (Nat × LCTrie V × Array (Option Nat))
  | 0, _, _ => .error .fuelOut
  | fuel + 1, .compressAt b parent, (lc, done) => do
    let bb ← if h : b < tree.size then pure tree[b] else .error .oob
    let compression ← compressionLevel tree (fuel + 1) bb comp
    let shift := bb.bit
    let (current, ct) ← lc.branching.push parent bb.escape (u8sub shift 1)
      (compression + 1)
    let lc : LCTrie V := { lc with branching := ct }
    let done := done.set! b (some current)
    let (hdr, _) ← lc.branching.node current
    let (_, lc, done) ← buildGo W tree comp fuel
      (.children current 0 hdr.children b) (lc, done)
    return (current, lc, done)
  | fuel + 1, .children current i cnt b, st => do
    if i < cnt then do
      let (_, st) ← buildGo W tree comp fuel (.child current i 1 b b) st
      buildGo W tree comp fuel (.children current (i + 1) cnt b) st
    else return (0, st)
  | fuel + 1, .child current currchild depth start b, (lc, done) => do
    let (c, _) ← lc.branching.node current
    let bb ← if h : b < tree.size then pure tree[b] else .error .oob
    let thechild :=
      if currchild &&& (1 <<< (c.size - depth)) == 0 then bb.child0 else bb.child1
    if thechild.isLeaf then do
      let thechild := thechild.asLeaf
      let shft := u8sub (u8sub W c.shift) c.size
      let lf ← lc.leaf thechild
      let matching := last16 (wshr W lf.pfx.bitslot shft) &&& c.mask
      let child := last16 (wshr W (lf.pfx.mask W) shft) &&& currchild
      let thechild ← escapeStack W tree lc c.mask shft (fuel + 1)
        thechild matching child b
      let ct ← lc.branching.setChild current currchild (leafIx thechild)
      return (0, { lc with branching := ct }, done)
    else do
      let tb := thechild.asBranch
      match done.getD tb none with
      | some n => do
        let ct ← lc.branching.setChild current currchild (branchIx n)
        return (0, { lc with branching := ct }, done)
      | none => do
        let tbb ← if h : tb < tree.size then pure tree[tb] else .error .oob
        let depth' := u8sub tbb.bit c.shift
        if depth' > c.size then do
          let (n, lc, done) ← buildGo W tree comp fuel (.compressAt tb current)
            (lc, done)
          let ct ← lc.branching.setChild current currchild (branchIx n)
          return (0, { lc with branching := ct }, done)
        else
          buildGo W tree comp fuel (.child current currchild depth' start tb)
            (lc, done)

/-- `LevelCompressedTrie::compress(tree, b, parent, done, comp)` through
the trampoline. -/
def compress (W : Nat) (tree : Array Branching) (comp fuel b parent : Nat)
    (st : LCTrie V × Array (Option Nat)) :
    Res (Nat × LCTrie V × Array (Option Nat)) :=
  buildGo W tree comp fuel (.compressAt b parent) st

/-- A pending call of `skip_redundant_parent` or of its indexed
`for_each` loop, for the fueled trampoline `skipGo`. -/
inductive SkipCall where
  | node (b esc up : Nat)
  | kids (b i cnt esc up : Nat)

/-- Fueled trampoline of `LevelCompressedTrie::skip_redundant_parent(b,
esc, up)`:
```rust
(0..self[b].children()).for_each(|i| {
    if self[b].child(i).is_branching() {
        let bb = BranchingIndex::from(*self[b].child(i));
        if self[bb].escape == esc {
            self[bb].parent = up;
            self.skip_redundant_parent(bb, esc, up);
        } else {
            self.skip_redundant_parent(bb, self[bb].escape, self[bb].parent);
        }
    }
});
```
The `kids` mode is the indexed `for_each` loop. -/
def skipGo (V : Type) :
    Nat → SkipCall → LCTrie V → Res (LCTrie V)
  | 0, _, _ => .error .fuelOut
  | fuel + 1, .node b esc up, lc => do
    let (hdr, _) ← lc.branching.node b
    skipGo V fuel (.kids b 0 hdr.children esc up) lc
  | fuel + 1, .kids b i cnt esc up, lc => do
    if i < cnt then do
      let c ← lc.branching.child b i
      let lc ←
        if c.isBranching then do
          let bb := c.asBranch
          let (bbh, _) ← lc.branching.node bb
          if bbh.escape == esc then do
            let ct ← lc.branching.setParent bb up
            skipGo V fuel (.node bb esc up) { lc with branching := ct }
          else
            skipGo V fuel (.node bb bbh.escape bbh.parent) lc
        else pure lc
      skipGo V fuel (.kids b (i + 1) cnt esc up) lc
    else return lc

/-- `skip_redundant_parent` through the trampoline. -/
def skipRedundantParent (V : Type) (fuel : Nat) (lc : LCTrie V)
    (b esc up : Nat) : Res (LCTrie V) :=
  skipGo V fuel (.node b esc up) lc

/-- `LevelCompressedTrie::new(trie)`:
```rust
let mut lctrie = Self {
    branching: CompressedTree::with_capacity(trie.branching.0.len()),
    leaves: trie.leaves };
let comp = 0;
let trie = trie.branching;
let mut done = vec![None; trie.0.len()];
lctrie.compress(&trie, root, root, &mut done, comp);
lctrie.skip_redundant_parent(root, root_leaf, root);
lctrie
``` -/
def LCTrie.new (W fuel : Nat) (t : RadixTrie V) : Res (LCTrie V) := do
  let lc : LCTrie V :=
    { branching := CompressedTree.withCapacity t.branching.size,
      leaves := t.leaves }
  let comp := 0
  let tree := t.branching
  let done : Array (Option Nat) := Array.mkArray tree.size none
  let (_, lc, _) ← compress W tree comp fuel 0 0 (lc, done)
  skipRedundantParent V fuel lc 0 rootLeaf 0

/-- The descent loop shared by the LC-trie lookups:
```rust
loop {
    match self[b].lookup(&k.bitslot()) {
        n if n.is_branching() => b = (*n).into(),
        n => { l = (*n).into(); break; }
    }
}
```
where `Compressed::lookup(slot)` is `child(letter(slot))`.  Returns the
final `(b, l)`. -/
def lcDescend (W : Nat) (lc : LCTrie V) (slot : Nat) :
    Nat → Nat → Res (Nat × Nat)
  | 0, _ => .error .fuelOut
  | fuel + 1, b => do
    let (hdr, _) ← lc.branching.node b
    let n ← lc.branching.child b (hdr.letter W slot)
    if n.isBranching then lcDescend W lc slot fuel n.asBranch
    else return (b, n.asLeaf)

/-- The escape walk of `LevelCompressedTrie::inner_lookup`:
`while !self[l].covers(k) { b = bb.parent; bb = &self[b]; l = bb.escape; }`. -/
def lcClimb (W : Nat) (lc : LCTrie V) (k : Pfx) :
    Nat → Nat → Nat → Res Nat
  | 0, _, _ => .error .fuelOut
  | fuel + 1, b, l => do
    let lf ← lc.leaf l
    if coversB W lf.pfx k then return l
    else do
      let (bb, _) ← lc.branching.node b
      let b := bb.parent
      let (bb', _) ← lc.branching.node b
      lcClimb W lc k fuel b bb'.escape

/-- `LevelCompressedTrie::inner_lookup(k)`:
```rust
let mut b = root; let mut l;
loop { ... }  -- lcDescend with k.bitslot()
let mut bb = &self[b];
if l != bb.escape {
    if self[l].covers(k) { return l; }
    l = bb.escape;
}
while !self[l].covers(k) { b = bb.parent; bb = &self[b]; l = bb.escape; }
l
``` -/
def lcInnerLookup (W fuel : Nat) (lc : LCTrie V) (k : Pfx) : Res Nat := do
  let (b, l) ← lcDescend W lc k.bitslot fuel 0
  let (bb, _) ← lc.branching.node b
  if l != bb.escape then do
    let lf ← lc.leaf l
    if coversB W lf.pfx k then return l
    else lcClimb W lc k fuel b bb.escape
  else lcClimb W lc k fuel b l

/-- `LevelCompressedTrie::lookup(k)`: the `(prefix, value)` leaf found by
`inner_lookup`. -/
def lcLookup (W fuel : Nat) (lc : LCTrie V) (k : Pfx) : Res (Leaf V) := do
  let l ← lcInnerLookup W fuel lc k
  lc.leaf l

/-- `LevelCompressedTrie::get(k)`: descend, then compare the found leaf's
prefix with the query by structural equality (`leaf.prefix == *k`, the
derived `PartialEq` of the truncated prefix types: equal slot and equal
length):
```rust
loop { ... }  -- lcDescend
let leaf = &self.leaves[l];
if leaf.prefix == *k { Some(&leaf.value) } else { None }
``` -/
def lcGet (W fuel : Nat) (lc : LCTrie V) (k : Pfx) : Res (Option V) := do
  let (_, l) ← lcDescend W lc k.bitslot fuel 0
  let lf ← lc.leaf l
  if lf.pfx == k then return some lf.value else return none

/-! ## Operation sequences

The claims quantify over tries obtained by finite sequences of public
`insert` and `remove` operations starting from a fresh trie.  `runOps`
executes such a sequence on `RTrieMap::with_root(0)` (root value 0) and
collects the `Option` results of the operations. -/

/-- A public mutating trie operation. -/
inductive Op (V : Type) where
  | ins (k : Pfx) (v : V)
  | rem (k : Pfx)
  deriving Repr

/-- Run a sequence of operations on a fresh trie with root value `root`. -/
def runOps (W fuel : Nat) (root : V) (ops : List (Op V)) :
    Res (List (Option V) × RadixTrie V) := do
  let mut t := RadixTrie.new V root
  let mut rs : List (Option V) := []
  for op in ops do
    match op with
    | .ins k v =>
      let (r, t') ← insert W fuel t k v
      t := t'
      rs := rs ++ [r]
    | .rem k =>
      let (r, t') ← remove W fuel t k
      t := t'
      rs := rs ++ [r]
  return (rs, t)

/-! ## Claim C1 — longest-prefix-match correctness of `lookup`

The claim: for every radix trie obtained by any finite sequence of insert
and remove operations and every query, `lookup` returns a stored pair
whose prefix covers the query with maximal length.

The code violates it.  After
`insert 129.0.0.0/8; insert 128.0.0.0/8; remove 128.0.0.0/8;
insert 192.0.0.0/2` (all `Ipv4Prefix`, slots truncated), the removal has
redirected a child slot of the bit-8 branching back to its escape, and the
last insertion takes the first case of `insert_prefix`
(`pos > deepestlen && deepestlen < addedlen`, the deepest candidate being
the root leaf), plugging the /2 leaf as a direct child of the bit-8
branching.  Querying the address 193.0.0.1 then descends the other side
of bit 8 and falls back to the root, although the stored 192.0.0.0/2
covers the query. -/

/-- The C1 failing operation sequence (claims C3, C4, C6 extend it). -/
def c1Ops : List (Op Nat) :=
  [.ins ⟨0x81000000, 8⟩ 1,    -- 129.0.0.0/8
   .ins ⟨0x80000000, 8⟩ 2,    -- 128.0.0.0/8
   .rem ⟨0x80000000, 8⟩,
   .ins ⟨0xC0000000, 2⟩ 3]    -- 192.0.0.0/2

/-- **C1.** Evaluating the code at the failing input: after `c1Ops`, the
stored prefixes are `0/0, 129.0.0.0/8, 192.0.0.0/2`; the prefix
192.0.0.0/2 covers the address query 193.0.0.1 (length 2 > 0), yet
`lookup` returns the root prefix of length 0 — not a covering prefix of
maximal length. -/
theorem c1_lookup_violates_lpm :
    (do
      let (_, t) ← runOps 32 99 0 c1Ops
      let found ← lookup 32 99 t ⟨0xC1000001, 32⟩
      return (t.leaves.toList.map Leaf.pfx, found.pfx)) =
      .ok ([⟨0, 0⟩, ⟨0x81000000, 8⟩, ⟨0xC0000000, 2⟩], (⟨0, 0⟩ : Pfx)) ∧
    covering 32 ⟨0xC0000000, 2⟩ ⟨0xC1000001, 32⟩ = .widerRange := by
  constructor
  · decide
  · decide

/-! ## Claim C2 — compression preserves longest-prefix matching

The claim: for every trie and query, `lookup` on the LC-trie built by
`compress()` returns the same prefix as `lookup` on the radix trie.

The code violates it.  After
`insert 192.0.0.0/2; insert 128.0.0.0/1; remove 128.0.0.0/1;
insert 128.0.0.0/1; insert 176.0.0.0/7` the radix trie holds two
branchings that both test bit 2 on one path (the re-insertion after the
removal rebuilt its branching below the dead one).  The radix `lookup`
of 128.0.0.0/8 correctly answers 128.0.0.0/1, but the LC builder absorbs
the inner branching — whose escape differs from the window's escape,
violating the builder's own `debug_assert_eq!(tree[start].escape,
tree[b].escape)` — and drops the 128.0.0.0/1 leaf, so the LC `lookup`
answers the root prefix. -/

/-- The C2 failing operation sequence. -/
def c2Ops : List (Op Nat) :=
  [.ins ⟨0xC0000000, 2⟩ 1,    -- 192.0.0.0/2
   .ins ⟨0x80000000, 1⟩ 2,    -- 128.0.0.0/1
   .rem ⟨0x80000000, 1⟩,
   .ins ⟨0x80000000, 1⟩ 4,
   .ins ⟨0xB0000000, 7⟩ 5]    -- 176.0.0.0/7

/-- **C2.** Evaluating the code at the failing input: on the trie built by
`c2Ops`, the radix `lookup` of the prefix 128.0.0.0/8 returns
128.0.0.0/1, while `lookup` on the LC-trie built from the same trie
returns the root prefix 0/0. -/
theorem c2_compression_changes_lookup :
    (do
      let (_, t) ← runOps 32 99 0 c2Ops
      let found ← lookup 32 99 t ⟨0x80000000, 8⟩
      return found.pfx) = .ok (⟨0x80000000, 1⟩ : Pfx) ∧
    (do
      let (_, t) ← runOps 32 99 0 c2Ops
      let lc ← LCTrie.new 32 99 t
      let found ← lcLookup 32 99 lc ⟨0x80000000, 8⟩
      return found.pfx) = .ok (⟨0, 0⟩ : Pfx) := by
  constructor
  · decide
  · decide

/-! ## Claim C3 — `get` answers exactly the stored prefixes

The claim: `get(p)` returns `Some` of the stored entry exactly when a
prefix equally covering `p` was inserted and not removed.

The code violates it: extending `c1Ops` with `insert 193.0.0.0/8` splits
the path above the misplaced 192.0.0.0/2 leaf, after which that stored,
never-removed entry is no longer found — `get(192.0.0.0/2)` returns
`None` although the leaf is still in the arena. -/

/-- The C3 failing operation sequence. -/
def c3Ops : List (Op Nat) := c1Ops ++ [.ins ⟨0xC1000000, 8⟩ 5]

/-- **C3.** Evaluating the code at the failing input: after `c3Ops`, the
prefix 192.0.0.0/2 was inserted (fourth operation) and never removed and
is still among the stored leaves, yet `get` on it returns `None`. -/
theorem c3_get_misses_stored_prefix :
    (do
      let (_, t) ← runOps 32 99 0 c3Ops
      let g ← get 32 99 t ⟨0xC0000000, 2⟩
      return (t.leaves.toList.map Leaf.pfx, g.map Leaf.pfx)) =
      .ok ([⟨0, 0⟩, ⟨0x81000000, 8⟩, ⟨0xC0000000, 2⟩, ⟨0xC1000000, 8⟩],
           none) := by
  decide

/-! ## Claim C4 — `remove` agrees with `get` and preserves reachability

The claim (among other parts): after a successful removal every other
stored entry is still reachable under its prefix.

The code violates it.  Extending `c3Ops` with `remove 129.0.0.0/8`: the
removal succeeds (it returns the value 1 stored for 129.0.0.0/8), and
immediately afterwards the stored and never-removed entry 192.0.0.0/2 is
not reachable: `get(192.0.0.0/2)` returns `None` (and its old leaf index
is left dangling in the arena). -/

/-- The C4 failing operation sequence: `c3Ops` then a successful
removal. -/
def c4Ops : List (Op Nat) := c3Ops ++ [.rem ⟨0x81000000, 8⟩]

/-- **C4.** Evaluating the code at the failing input: the final removal
succeeds (`some 1`), the entry 192.0.0.0/2 is still stored afterwards,
and `get` on it returns `None` — a stored entry is unreachable after a
successful removal. -/
theorem c4_entry_unreachable_after_remove :
    (do
      let (rs, t) ← runOps 32 99 0 c4Ops
      let g ← get 32 99 t ⟨0xC0000000, 2⟩
      return (rs.getLastD none, t.leaves.toList.map Leaf.pfx, g.map Leaf.pfx)) =
      .ok (some 1, [⟨0, 0⟩, ⟨0xC1000000, 8⟩, ⟨0xC0000000, 2⟩], none) := by
  decide

/-! ## Claim C6 — `len()` counts the distinct stored prefixes plus one

The claim: after any operation sequence, `len()` equals one plus the
number of distinct (up to equal coverage) prefixes inserted and not
removed, and re-inserting an equally covering prefix leaves it unchanged.

The code violates it: extending `c3Ops` by re-inserting 192.0.0.0/2 — a
prefix equally covering the already stored 192.0.0.0/2 — the walk misses
the stored copy, the insertion returns `None` instead of updating, and
the leaf arena ends with five leaves (the root plus four, with
192.0.0.0/2 twice) although only three distinct prefixes were inserted
and not removed. -/

/-- The C6 failing operation sequence: `c3Ops` then a duplicate insert. -/
def c6Ops : List (Op Nat) := c3Ops ++ [.ins ⟨0xC0000000, 2⟩ 6]

/-- **C6.** Evaluating the code at the failing input: the duplicate
insertion returns `None`, and the trie ends with `len() = 5` leaves,
storing 192.0.0.0/2 twice, although the distinct inserted-and-not-removed
prefixes number three (129.0.0.0/8, 192.0.0.0/2, 193.0.0.0/8), so the
claimed length is 4. -/
theorem c6_len_counts_duplicate :
    (do
      let (rs, t) ← runOps 32 99 0 c6Ops
      return (rs, t.leaves.toList.map Leaf.pfx, t.leaves.size)) =
      .ok ([none, none, some 2, none, none, none],
           [⟨0, 0⟩, ⟨0x81000000, 8⟩, ⟨0xC0000000, 2⟩, ⟨0xC1000000, 8⟩,
            ⟨0xC0000000, 2⟩],
           5) := by
  decide

/-! ## Claim C7 — removing the root prefix panics

The claim: attempting to remove the root prefix from a radix trie map or
set panics, and is never reported as a recoverable result.

The code violates it on corrupted-but-reachable states.  After the seven
operations of `c7Ops`, the leaf arena holds two leaves but a branching
child slot still refers to leaf index 2 (the reindexing pass of the last
`remove` did not find the moved leaf).  `remove` of the root prefix then
descends into that slot and performs an out-of-bounds
`get_unchecked` read of the leaf arena — undefined behaviour in release
builds, reported as `oob` by the embedding — before the root-removal
`panic!` can be reached. -/

/-- The C7 failing operation sequence. -/
def c7Ops : List (Op Nat) :=
  [.ins ⟨0x01000000, 8⟩ 1,    -- 1.0.0.0/8
   .ins ⟨0x00000000, 8⟩ 2,    -- 0.0.0.0/8
   .rem ⟨0x00000000, 8⟩,
   .ins ⟨0x40000000, 2⟩ 4,    -- 64.0.0.0/2
   .ins ⟨0x41000000, 8⟩ 5,    -- 65.0.0.0/8
   .rem ⟨0x01000000, 8⟩,
   .rem ⟨0x41000000, 8⟩]

/-- **C7.** Evaluating the code at the failing input: the seven operations
of `c7Ops` all succeed and leave the two leaves `0/0` and `64.0.0.0/2`,
but `remove` of the root prefix (length 0) performs an out-of-bounds leaf
read instead of reaching the root-removal panic. -/
theorem c7_remove_root_out_of_bounds :
    (do
      let (_, t) ← runOps 32 99 0 c7Ops
      return t.leaves.toList.map Leaf.pfx) =
      .ok [⟨0, 0⟩, ⟨0x40000000, 2⟩] ∧
    (do
      let (_, t) ← runOps 32 99 0 c7Ops
      remove 32 99 t prefixRoot) = .error .oob := by
  constructor
  · decide
  · decide

/-! ## Claim C9 — insert/insert/get on a fresh prefix

The claim: on a radix trie map whose stored prefixes do not equally cover
`p`, `insert(p, v)` returns `None` (and a following `insert(p, w)`
returns `Some(v)`, after which `get(p)` is `Some(&w)`).

The code violates the very first part on the reachable state left by
`c7Ops`: the stored prefixes are `0/0` and `64.0.0.0/2`, neither of which
equally covers `p = 32.0.0.0/3`, yet `insert(p, 9)` descends into the
dangling child slot and performs an out-of-bounds leaf read — undefined
behaviour — instead of returning `None`. -/

/-- **C9.** Evaluating the code at the failing input: neither stored
prefix equally covers 32.0.0.0/3, and `insert` of it on the `c7Ops` state
performs an out-of-bounds read instead of returning `None`. -/
theorem c9_insert_out_of_bounds :
    (do
      let (_, t) ← runOps 32 99 0 c7Ops
      return t.leaves.toList.map Leaf.pfx) =
      .ok [⟨0, 0⟩, ⟨0x40000000, 2⟩] ∧
    covering 32 ⟨0, 0⟩ ⟨0x20000000, 3⟩ ≠ .sameRange ∧
    covering 32 ⟨0x40000000, 2⟩ ⟨0x20000000, 3⟩ ≠ .sameRange ∧
    (do
      let (_, t) ← runOps 32 99 0 c7Ops
      insert 32 99 t ⟨0x20000000, 3⟩ 9) = .error .oob := by
  refine ⟨?_, ?_, ?_, ?_⟩
  · decide
  · decide
  · decide
  · decide

/-! ## Claim C5 — the fan-out choice of the LC builder

The claim describes the chosen fan-out as `size = j+1` for the largest
`j ∈ 1..=15` whose count of branchings at depths `bit(B)+1 .. bit(B)+1+j`
(a Rust range, excluding its upper bound), restricted to branchings
sharing `B.escape`, reaches `(1<<j)/2`.  The code instead folds over
`j = 1 .. compression_level_max − 1`, counts without the escape
restriction and including `B` itself, requires each count to *strictly
improve* on the best count so far, and stops at the first `j` whose count
misses the threshold. -/

/-- The count exactly as claim C5 words it: the number of Patricia
branchings lying at depths (1-based bit positions) in the half-open
window `lo .. hi` within the subtree of `b` restricted to branchings
sharing the escape `esc`.  This is the claim's formula, not the code's
(`countCompressedBranching` is the code's). -/
def claimWindowCount (tree : Array Branching) :
    Nat → Branching → Nat → Nat → Nat → Nat
  | 0, _, _, _, _ => 0
  | fuel + 1, b, lo, hi, esc =>
    (if b.child0.isBranching then
       (if h : b.child0.asBranch < tree.size then
          (if tree[b.child0.asBranch].escape = esc then
             (if lo ≤ tree[b.child0.asBranch].bit ∧ tree[b.child0.asBranch].bit < hi
              then 1 else 0) +
               claimWindowCount tree fuel tree[b.child0.asBranch] lo hi esc
           else 0)
        else 0)
     else 0) +
    (if b.child1.isBranching then
       (if h : b.child1.asBranch < tree.size then
          (if tree[b.child1.asBranch].escape = esc then
             (if lo ≤ tree[b.child1.asBranch].bit ∧ tree[b.child1.asBranch].bit < hi
              then 1 else 0) +
               claimWindowCount tree fuel tree[b.child1.asBranch] lo hi esc
           else 0)
        else 0)
     else 0)

/-- The fan-out exactly as claim C5 words it: `1 + j` for the largest
`j ∈ 1..=15` whose window count reaches `(1 << j) / 2`; `1` when no `j`
qualifies. -/
def claimFanout (tree : Array Branching) (b : Branching) : Nat :=
  1 + (List.range' 1 15).foldl
    (fun best j =>
      if claimWindowCount tree tree.size b (b.bit + 1) (b.bit + 1 + j) b.escape ≥
          (1 <<< j) / 2
      then j else best) 0

/-- The three insertions whose radix trie distinguishes the claim's
formula from the code: branchings at bits 1, 3 and 4, all sharing the
root-leaf escape. -/
def c5Ops : List (Op Nat) :=
  [.ins ⟨0xA0000000, 4⟩ 1,    -- 160.0.0.0/4
   .ins ⟨0xB0000000, 4⟩ 2,    -- 176.0.0.0/4
   .ins ⟨0x80000000, 4⟩ 3]    -- 128.0.0.0/4

/-- **C5, counterexample.**  On the trie built by `c5Ops`, the LC builder
gives the root branching the fan-out `compression_level + 1 = 3`
(it finds the strict count improvement at `j = 2`), while the claim's
formula yields fan-out 1 (no `j` qualifies: the depth window
`bit+1 .. bit+1+j` never holds `(1<<j)/2` branchings). -/
theorem c5_fanout_counterexample :
    (do
      let (_, t) ← runOps 32 99 0 c5Ops
      let b ← getB t 0
      let lvl ← compressionLevel t.branching 99 b 0
      return (lvl + 1, claimFanout t.branching b)) = .ok (3, 1) := by
  decide

/-- The threshold tested by the fold of `compression_level`:
`(1<<j)/(1<<comp)/2`. -/
def clThreshold (comp j : Nat) : Nat := (1 <<< j) / (1 <<< comp) / 2

/-- The pure mirror of the `try_fold` of `compression_level`, on a count
function `c`. -/
def clFoldSpec (comp : Nat) (c : Nat → Nat) : List Nat → Nat × Nat → Nat
  | [], (level, _) => level
  | j :: js, (level, best) =>
    if c j < clThreshold comp j then level
    else if c j > best then clFoldSpec comp c js (j, c j)
    else clFoldSpec comp c js (level, best)

/-- The strict-improvement points of the count function over a window
list, accumulated left to right: `j` is kept exactly when its count
strictly exceeds the count of every kept predecessor and the reference
count `c 0`. -/
def impsFrom (comp : Nat) (c : Nat → Nat) : List Nat → List Nat → List Nat
  | [], acc => acc
  | j :: js, acc =>
    impsFrom comp c js
      (if c j > (acc.map c).foldl Nat.max (c 0) then acc ++ [j] else acc)

/-- The prefix of the window list `1, …, cmax − 1` on which every count
meets its threshold (the fold of `compression_level` never looks past the
first failure). -/
def clValid (comp : Nat) (c : Nat → Nat) (cmax : Nat) : List Nat :=
  (List.range' 1 (cmax - 1)).takeWhile
    (fun j => !decide (c j < clThreshold comp j))

/-- The strict-improvement points of the examined window prefix. -/
def clImprovements (comp : Nat) (c : Nat → Nat) (cmax : Nat) : List Nat :=
  impsFrom comp c (clValid comp c cmax) []

/-- `clFold` deviates from its pure mirror only through the embedded
count calls. -/
theorem clFold_eq_spec (tree : Array Branching) (fuel : Nat) (b : Branching)
    (comp : Nat) (c : Nat → Nat) :
    ∀ (js : List Nat) (acc : Nat × Nat),
      (∀ j ∈ js, countCompressedBranching tree fuel b (b.bit + j) = .ok (c j)) →
      clFold tree fuel b comp js acc = .ok (clFoldSpec comp c js acc) := by
  intro js
  induction js with
  | nil =>
    intro acc _
    obtain ⟨lvl, best⟩ := acc
    rfl
  | cons j js ih =>
    intro acc h
    obtain ⟨lvl, best⟩ := acc
    have hj : countCompressedBranching tree fuel b (b.bit + j) = .ok (c j) :=
      h j (by simp)
    have hrest : ∀ i ∈ js,
        countCompressedBranching tree fuel b (b.bit + i) = .ok (c i) :=
      fun i hi => h i (by simp [hi])
    unfold clFold clFoldSpec clThreshold
    rw [hj]
    by_cases hth : c j < (1 <<< j) / (1 <<< comp) / 2
    · simp [hth]
    · by_cases himp : c j > best
      · simp [hth, himp, ih (j, c j) hrest]
      · simp [hth, himp, ih (lvl, best) hrest]

/-- The pure fold computes the last strict-improvement point of the
window prefix that meets the thresholds. -/
theorem clFoldSpec_eq_imps (comp : Nat) (c : Nat → Nat) :
    ∀ (js : List Nat) (acc : List Nat),
      clFoldSpec comp c js
        (acc.getLastD 0, (acc.map c).foldl Nat.max (c 0)) =
      (impsFrom comp c
        (js.takeWhile (fun j => !decide (c j < clThreshold comp j)))
        acc).getLastD 0 := by
  intro js
  induction js with
  | nil => intro acc; rfl
  | cons j js ih =>
    intro acc
    rw [List.takeWhile_cons]
    by_cases hth : c j < clThreshold comp j
    · simp [clFoldSpec, hth, impsFrom]
    · rw [if_pos (show (!decide (c j < clThreshold comp j)) = true by simp [hth])]
      simp only [clFoldSpec, if_neg hth, impsFrom]
      by_cases himp : c j > (acc.map c).foldl Nat.max (c 0)
      · rw [if_pos himp, if_pos himp]
        have h1 : (acc ++ [j]).getLastD 0 = j := by simp
        have h2 : ((acc ++ [j]).map c).foldl Nat.max (c 0) = c j := by
          simp only [List.map_append, List.foldl_append, List.map_cons,
            List.map_nil, List.foldl_cons, List.foldl_nil]
          exact Nat.max_eq_right (Nat.le_of_lt himp)
        have := ih (acc ++ [j])
        rw [h1, h2] at this
        exact this
      · rw [if_neg himp, if_neg himp]
        exact ih acc

/-- **C5, amended.**  What `compression_level(b, comp)` actually returns:
writing `c j` for `count_compressed_branching(b, bit(b)+j)` — the number
of branchings reachable from `b` (itself included, with no escape
restriction) through children whose bit positions stay `≤ bit(b)+j` —
and `cmax` for `compression_level_max(b, 15, b.escape)` (the
escape-homogeneous nesting bound, capped at 15), the result is the *last
strict-improvement point*: the largest `j` in the longest prefix of
`1, …, cmax−1` whose counts all reach `(1<<j)/(1<<comp)/2`, such that
`c j` strictly exceeds `c 0` and every earlier count of that prefix —
and 0 (fan-out 1) when no such `j` exists. -/
theorem c5_compression_level_amended (tree : Array Branching) (fuel : Nat)
    (b : Branching) (comp cmax : Nat) (c : Nat → Nat)
    (hm : compressionLevelMax tree 15 b b.escape = .ok cmax)
    (h0 : countCompressedBranching tree fuel b b.bit = .ok (c 0))
    (hj : ∀ j ∈ List.range' 1 (cmax - 1),
      countCompressedBranching tree fuel b (b.bit + j) = .ok (c j)) :
    compressionLevel tree fuel b comp =
      .ok ((clImprovements comp c cmax).getLastD 0) := by
  unfold compressionLevel
  rw [hm]
  show (do
    let c0 ← countCompressedBranching tree fuel b b.bit
    clFold tree fuel b comp (List.range' 1 (cmax - 1)) (0, c0)) = _
  rw [h0]
  show clFold tree fuel b comp (List.range' 1 (cmax - 1)) (0, c 0) = _
  rw [clFold_eq_spec tree fuel b comp c _ _ hj]
  have := clFoldSpec_eq_imps comp c (List.range' 1 (cmax - 1)) []
  simp only [List.getLastD_nil, List.map_nil, List.foldl_nil] at this
  rw [this]
  rfl

/-- Witness for the amended C5: the theorem applied to the concrete
`c5Ops` trie (its branching arena written out), whose count function is
`c 0 = c 1 = 1`, `c 2 = 2` with `cmax = 3`; the last strict-improvement
point is `j = 2`. -/
theorem c5_amended_witness :
    compressionLevel
      #[{ escape := 0, parent := 0, child0 := -1, child1 := 2, bit := 1 },
        { escape := 0, parent := 2, child0 := -2, child1 := -3, bit := 4 },
        { escape := 0, parent := 0, child0 := -4, child1 := 1, bit := 3 }] 99
      { escape := 0, parent := 0, child0 := -1, child1 := 2, bit := 1 } 0 =
    .ok ((clImprovements 0
      (fun j => if j = 0 then 1 else if j = 1 then 1 else 2) 3).getLastD 0) :=
  c5_compression_level_amended _ 99 _ 0 3
    (fun j => if j = 0 then 1 else if j = 1 then 1 else 2)
    (by decide) (by decide) (by decide)

/-! ## Claim C10 — the standard prefix constructors truncate their slot -/

/-- Masking twice with the same mask is masking once. -/
theorem land_bitmask_idem (a m : Nat) : (a &&& m) &&& m = a &&& m := by
  rw [Nat.land_assoc]
  congr 1
  refine Nat.eq_of_testBit_eq fun i => ?_
  simp

/-- **C10.** Every value of `Ipv4Prefix`/`Ipv6Prefix` produced through the
public constructors — `new`, `From` an address or an `ipnet` network
(`FromStr` parses into a network and converts), and `root` — has all slot
bits below its length equal to zero: `bitslot_trunc()` coincides with
`bitslot()`.  Consequently, on such values the derived structural
equality coincides with equal coverage (`covering = SameRange`). -/
theorem c10_constructors_truncated :
    (∀ W addr len p, prefixNew W addr len = .ok p → p.trunc W = p.bitslot) ∧
    (∀ W, prefixRoot.trunc W = prefixRoot.bitslot) ∧
    (∀ W addr len,
      (prefixFromNet W addr len).trunc W = (prefixFromNet W addr len).bitslot) ∧
    (∀ W addr,
      (prefixFromAddr W addr).trunc W = (prefixFromAddr W addr).bitslot) ∧
    (∀ W (p q : Pfx), p.trunc W = p.bitslot → q.trunc W = q.bitslot →
      (p = q ↔ covering W p q = .sameRange)) := by
  refine ⟨?_, ?_, ?_, ?_, ?_⟩
  · intro W addr len p h
    unfold prefixNew at h
    split at h
    · exact absurd h (by simp)
    · cases h
      simpa [Pfx.trunc, Pfx.bitslot] using land_bitmask_idem addr (bitmask W len)
  · intro W
    simp [Pfx.trunc, Pfx.bitslot, prefixRoot, Nat.zero_and]
  · intro W addr len
    simpa [Pfx.trunc, Pfx.bitslot, prefixFromNet]
      using land_bitmask_idem addr (bitmask W len)
  · intro W addr
    rcases Nat.eq_zero_or_pos W with hW | hW
    · subst hW
      simp [Pfx.trunc, Pfx.bitslot, prefixFromAddr, bitmask, Nat.mod_one]
    · have hmask : bitmask W W = 2 ^ W - 1 := by
        unfold bitmask
        rw [if_neg (by omega), Nat.sub_self, Nat.shiftLeft_zero,
          Nat.mod_eq_of_lt (by have := Nat.one_le_two_pow (n := W); omega)]
      simp only [Pfx.trunc, Pfx.bitslot, prefixFromAddr, hmask,
        Nat.and_pow_two_sub_one_eq_mod]
      exact Nat.mod_mod_of_dvd addr dvd_rfl
  · intro W p q hp hq
    constructor
    · rintro rfl
      simp [covering, Pfx.trunc, Pfx.mask, Pfx.bitslot]
    · intro h
      unfold covering at h
      by_cases hcov : (q.bitslot &&& p.mask W != p.trunc W) = true
      · rw [if_pos hcov] at h
        exact absurd h (by simp)
      · rw [if_neg hcov] at h
        by_cases hlt : p.len < q.len
        · rw [if_pos hlt] at h
          exact absurd h (by simp)
        · rw [if_neg hlt] at h
          by_cases hlen : p.len = q.len
          · simp only [bne_iff_ne, ne_eq, Decidable.not_not] at hcov
            obtain ⟨ps, pl⟩ := p
            obtain ⟨qs, ql⟩ := q
            simp only [Pfx.trunc, Pfx.bitslot] at hp hq
            simp only [Pfx.mask, Pfx.trunc, Pfx.bitslot] at hcov
            simp only at hlen
            subst hlen
            rw [hq, hp] at hcov
            simp [hcov]
          · rw [if_neg hlen] at h
            exact absurd h (by simp)

/-- Witness for C10: the theorem applied at concrete inputs — the address
constructor at 1.2.3.4 and the equality/equal-coverage correspondence at
the truncated prefix 10.0.0.0/8. -/
theorem c10_witness :
    ((prefixFromAddr 32 0x01020304).trunc 32 =
      (prefixFromAddr 32 0x01020304).bitslot) ∧
    (((⟨0x0A000000, 8⟩ : Pfx) = ⟨0x0A000000, 8⟩) ↔
      covering 32 ⟨0x0A000000, 8⟩ ⟨0x0A000000, 8⟩ = .sameRange) :=
  ⟨c10_constructors_truncated.2.2.2.1 32 0x01020304,
   c10_constructors_truncated.2.2.2.2 32 ⟨0x0A000000, 8⟩ ⟨0x0A000000, 8⟩
     (by decide) (by decide)⟩

/-! ## Claim C8 — the compressed arena never overflows its reservation

The claim: during every LC-trie build from a reachable radix trie, each
`CompressedTree::push` satisfies its always-on capacity `assert!`, so the
pre-reserved arena of `(n+1) * (2 * size_of::<Compressed>() /
size_of::<NodeIndex>())` slots never reallocates.

The code violates it.  The remove/insert interaction that `insert_prefix`'s
first case opens (the same root cause as C1) can hang a branching testing a
*small* bit below branchings testing *large* bits.  Because
`count_compressed_branching(b, depth)` only requires the child chain to
stay at bits `≤ depth` while the builder's walk recomputes each child's
depth with wrapping `u8` subtraction — so such an inverted child looks
deeper than the window and is compressed again as its own record — the
subtree below an inverted branching is counted once for every inverted
ancestor *and* paid for again in that ancestor's own record.  `c8Ops`
builds (via three temporary entries that are later removed) a 23-branching
trie with inverted branchings at bit 10 (below a bit-21 branching) and at
bit 3 (below the bit-10 one), a 12-branching chain under the bit-3 node,
and single branchings at bits 16 and 25 providing the strict-improvement
steps: the fold picks fan-out 5 (record size 6, 67 slots) for both the
bit-20 and the bit-10 branchings although they share the 12-branching
mass.  The reservation is `(23+1)*6 = 144` slots; the build pushes records
of `5 + 67 + 67 = 139` slots and then fails the capacity `assert!` on the
19-slot record for the bit-3 branching (`144 < 139 + 19`); the embedding
reports that assertion with the dedicated error `RunErr.capacity`, so the
theorem pins the failure on the capacity assertion and not on any other
panic site of the build. -/

/-- The C8 failing operation sequence.  Keys 1–3 build branchings at bits
20 and 21; removing key 1 and inserting/removing the 9-bit key plants the
inverted bit-10 branching holding leaf 0x80400000/32; keys 8–12 grow the
escape-homogeneous chain at bits 11–15 below it; the 2-bit key and
0xE0000000/32 plant the inverted bit-3 branching the same way; the twelve
0xF… /0xE…-keys grow the shared mass chain at bits 4–9 and 11–16; the last
key adds the bit-25 branching. -/
def c8Ops : List (Op Nat) :=
  [.ins ⟨0x80000000, 32⟩ 1, .ins ⟨0x80000800, 32⟩ 2, .ins ⟨0x80001000, 32⟩ 3,
   .rem ⟨0x80000000, 32⟩,
   .ins ⟨0x80000000, 9⟩ 4, .ins ⟨0x80400000, 32⟩ 5, .rem ⟨0x80000000, 9⟩,
   .ins ⟨0x80600000, 32⟩ 6, .ins ⟨0x80700000, 32⟩ 7, .ins ⟨0x80780000, 32⟩ 8,
   .ins ⟨0x807C0000, 32⟩ 9, .ins ⟨0x807E0000, 32⟩ 10,
   .ins ⟨0xC0000000, 2⟩ 11, .ins ⟨0xE0000000, 32⟩ 12, .rem ⟨0xC0000000, 2⟩,
   .ins ⟨0xF0000000, 32⟩ 13, .ins ⟨0xE8000000, 32⟩ 14, .ins ⟨0xE4000000, 32⟩ 15,
   .ins ⟨0xE2000000, 32⟩ 16, .ins ⟨0xE1000000, 32⟩ 17, .ins ⟨0xE0800000, 32⟩ 18,
   .ins ⟨0xE0200000, 32⟩ 19, .ins ⟨0xE0100000, 32⟩ 20, .ins ⟨0xE0080000, 32⟩ 21,
   .ins ⟨0xE0040000, 32⟩ 22, .ins ⟨0xE0020000, 32⟩ 23, .ins ⟨0xE0010000, 32⟩ 24,
   .ins ⟨0xE0000080, 32⟩ 25]

set_option maxRecDepth 100000 in
set_option maxHeartbeats 1000000 in
/-- **C8.** Evaluating the code at the failing input: the 28 public
operations of `c8Ops` all succeed and leave a 23-branching radix trie
(reserved arena `(23+1)*6 = 144` slots), and building the LC-trie from it
fails exactly the capacity assertion of `CompressedTree::push`, which the
claim says never fails. -/
theorem c8_capacity_assert_fails :
    (runOps 32 999 (0 : Nat) c8Ops).isOk = true ∧
    (do
      let (_, t) ← runOps 32 999 (0 : Nat) c8Ops
      return t.branching.size) = .ok 23 ∧
    (do
      let (_, t) ← runOps 32 999 (0 : Nat) c8Ops
      (LCTrie.new 32 999 t : Res (LCTrie Nat))) = .error .capacity := by
  refine ⟨?_, ?_, ?_⟩
  · decide
  · decide
  · decide

end IPTrie
